import Mathlib

/-!
Verification of the `VeiledPredictionMarket` contract
(src/contracts/VeiledPredictionMarket.sol) against its natural-language
specification.

The encrypted integers (`euint8`, `euint32`, `euint64`) are modelled by their
plaintext-equivalent values: natural numbers reduced modulo `2^8`, `2^32`,
`2^64` wherever the FHE arithmetic wraps.  Decrypt-permission grants
(`FHE.allow` / `FHE.allowThis`) are modelled as an append-only list of
(handle-reference, grantee) pairs, where a handle reference names the storage
field whose current ciphertext handle is being granted.  Reverting functions
return `Except ContractError`; a revert leaves the state unchanged (the step
function `runOp` keeps the pre-state on error, mirroring EVM atomicity).
-/

namespace VeiledMarket

/-- Addresses are modelled as natural numbers. -/
abbrev Address := Nat

/-- The `Bet` struct: encrypted choice (`euint8`), encrypted amount
(`euint64`), and the plaintext existence flag.  Plaintext-equivalent values. -/
structure Bet where
  choice : Nat
  amount : Nat
  here : Bool
deriving DecidableEq

/-- The `Prediction` struct.  `optionCounts` is the fixed 4-slot array of
`euint32` counters (a length-4 list of plaintext-equivalent values). -/
structure Prediction where
  title : String
  options : List String
  optionCount : Nat
  createdAt : Nat
  creator : Address
  totalStaked : Nat
  totalBets : Nat
  optionCounts : List Nat
deriving DecidableEq

instance : Inhabited Prediction :=
  ⟨{ title := "", options := [], optionCount := 0, createdAt := 0, creator := 0,
     totalStaked := 0, totalBets := 0, optionCounts := [0, 0, 0, 0] }⟩

/-- A reference to the storage field whose current ciphertext handle a
decrypt permission is granted on. -/
inductive HandleRef where
  | stakedRef (pid : Nat)
  | betsRef (pid : Nat)
  | countRef (pid : Nat) (i : Nat)
  | choiceRef (pid : Nat) (a : Address)
  | amountRef (pid : Nat) (a : Address)
deriving DecidableEq

/-- The contract's custom errors. -/
inductive ContractError where
  | InvalidPrediction
  | InvalidOptions
  | BetAlreadyPlaced
  | InvalidBetAmount
deriving DecidableEq

/-- Full contract state: the `_predictions` array, the `_bets` two-level
mapping (as an association list keyed by (predictionId, address)), the
`FHE.allow` grants and the `FHE.allowThis` self-grants. -/
structure ContractState where
  predictions : List Prediction
  bets : List (Nat × Address × Bet)
  grants : List (HandleRef × Address)
  selfGrants : List HandleRef
deriving DecidableEq

instance {ε α : Type} [DecidableEq ε] [DecidableEq α] : DecidableEq (Except ε α) :=
  fun x y =>
    match x, y with
    | .ok a, .ok b =>
      if h : a = b then .isTrue (by rw [h])
      else .isFalse (by intro hc; cases hc; exact h rfl)
    | .ok _, .error _ => .isFalse (by intro hc; cases hc)
    | .error _, .ok _ => .isFalse (by intro hc; cases hc)
    | .error e, .error f =>
      if h : e = f then .isTrue (by rw [h])
      else .isFalse (by intro hc; cases hc; exact h rfl)

/-- State of a freshly deployed contract. -/
def initState : ContractState := ⟨[], [], [], []⟩

/-- The entry of the `_bets` mapping for `(pid, a)`, when one was ever
written. -/
def lookupBet (s : ContractState) (pid : Nat) (a : Address) :
    Option (Nat × Address × Bet) :=
  s.bets.find? (fun e => e.1 == pid && e.2.1 == a)

/-- Read of the `_bets` mapping; a missing entry yields the Solidity
storage default `Bet(0, 0, false)`. -/
def findBet (s : ContractState) (pid : Nat) (a : Address) : Bet :=
  ((lookupBet s pid a).map (fun e => e.2.2)).getD ⟨0, 0, false⟩

/-- One FHE operation observable in `placeBet`'s per-option aggregation loop:
the opcode together with its public arguments (the loop index, the grantee
address).  The secret encrypted values are not part of the observable. -/
inductive FheOp where
  | eqConst (i : Nat)
  | selOp
  | addSlot (i : Nat)
  | allowThisSlot (i : Nat)
  | allowSlot (i : Nat) (a : Address)
deriving DecidableEq

/-- The aggregation loop of `placeBet` (source lines 95-103), instrumented:
for `i` in `[0, k)` it compares the secret 8-bit `choice` with `i`
(`FHE.eq`), selects 1 or 0 (`FHE.select`), adds the selection into
`optionCounts[i]` (wrapping `euint32` addition), and issues the two
permission grants.  Returns the updated counters together with the emitted
operation sequence. -/
def betLoop (choice : Nat) (u : Address) (cs : List Nat) : Nat → List Nat × List FheOp
  | 0 => (cs, [])
  | k + 1 =>
    let r := betLoop choice u cs k
    (r.1.set k ((r.1.getD k 0 + (if choice = k then 1 else 0)) % 2 ^ 32),
     r.2 ++ [.eqConst k, .selOp, .addSlot k, .allowThisSlot k, .allowSlot k u])

/-- The prediction appended by a successful `createPrediction` (source lines
44-59): option count cached from the list length, all aggregate counters at
encrypted zero in the fixed 4-slot array. -/
def newPrediction (title : String) (options : List String) (timestamp : Nat)
    (sender : Address) : Prediction :=
  { title := title
    options := options
    optionCount := options.length
    createdAt := timestamp % 2 ^ 64
    creator := sender
    totalStaked := 0
    totalBets := 0
    optionCounts := [0, 0, 0, 0] }

/-- The state after a successful `createPrediction`: the prediction is
appended and the contract self-grants the new counter and total handles. -/
def createSuccState (s : ContractState) (title : String) (options : List String)
    (timestamp : Nat) (sender : Address) : ContractState :=
  { s with
    predictions := s.predictions ++ [newPrediction title options timestamp sender]
    selfGrants := s.selfGrants
      ++ (List.range options.length).map (fun i => .countRef s.predictions.length i)
      ++ [.stakedRef s.predictions.length, .betsRef s.predictions.length] }

/-- `createPrediction(title, options)` (source lines 39-64): rejects an
option count outside `[2,4]`, otherwise appends a prediction with all
aggregates at encrypted zero, self-grants the new handles, and returns the
new id (the previous array length). -/
def createPrediction (s : ContractState) (title : String) (options : List String)
    (timestamp : Nat) (sender : Address) : Except ContractError (Nat × ContractState) :=
  if options.length < 2 ∨ options.length > 4 then
    .error .InvalidOptions
  else
    .ok (s.predictions.length, createSuccState s title options timestamp sender)

/-- The state built by `placeBet`'s success path (source lines 84-113):
record the bet, add the amount into `totalStaked` and 1 into `totalBets`
(wrapping fixed-width addition), run the oblivious per-option loop, issue
the self-grants and the caller's grants. -/
def betSuccState (s : ContractState) (pid : Nat) (choiceExt : Nat) (value : Nat)
    (sender : Address) : ContractState :=
  let p := s.predictions.getD pid default
  let choice := choiceExt % 2 ^ 8
  let amount := value % 2 ^ 64
  let p' : Prediction :=
    { p with
      totalStaked := (p.totalStaked + amount) % 2 ^ 64
      totalBets := (p.totalBets + 1) % 2 ^ 32
      optionCounts := (betLoop choice sender p.optionCounts p.optionCount).1 }
  { s with
    predictions := s.predictions.set pid p'
    bets := (pid, sender, ⟨choice, amount, true⟩) :: s.bets
    grants := s.grants
      ++ (List.range p.optionCount).map (fun i => (.countRef pid i, sender))
      ++ [(.stakedRef pid, sender), (.betsRef pid, sender),
          (.choiceRef pid sender, sender), (.amountRef pid sender, sender)]
    selfGrants := s.selfGrants
      ++ (List.range p.optionCount).map (fun i => .countRef pid i)
      ++ [.stakedRef pid, .betsRef pid, .choiceRef pid sender, .amountRef pid sender] }

/-- `placeBet(predictionId, encryptedChoice, inputProof)` with `msg.value`
(source lines 67-116).  `choiceExt` is the plaintext-equivalent value carried
by the external encrypted input; `FHE.fromExternal` yields its low 8 bits.
Checks, in order: prediction exists; `0 < msg.value <= 2^64-1`; no prior
bet.  On success builds `betSuccState`. -/
def placeBet (s : ContractState) (pid : Nat) (choiceExt : Nat) (value : Nat)
    (sender : Address) : Except ContractError ContractState :=
  if s.predictions.length ≤ pid then
    .error .InvalidPrediction
  else if value = 0 ∨ value > 2 ^ 64 - 1 then
    .error .InvalidBetAmount
  else if (findBet s pid sender).here then
    .error .BetAlreadyPlaced
  else
    .ok (betSuccState s pid choiceExt value sender)

/-- `grantAccess(predictionId)` (source lines 119-136): reverts on a missing
prediction, otherwise grants the caller decrypt permission on the market's
`totalStaked`, `totalBets` and `optionCounts[0..optionCount)`, plus their own
bet's `choice` and `amount` when such a bet exists.  `grantList` is the list
of grants issued by the success path, in source order (lines 125-135). -/
def grantList (s : ContractState) (pid : Nat) (sender : Address) :
    List (HandleRef × Address) :=
  [(.stakedRef pid, sender), (.betsRef pid, sender)]
    ++ (List.range (s.predictions.getD pid default).optionCount).map
        (fun i => (.countRef pid i, sender))
    ++ (if (findBet s pid sender).here then
          [(.choiceRef pid sender, sender), (.amountRef pid sender, sender)]
        else [])

/-- `grantAccess(predictionId)`: revert with `InvalidPrediction` on a
missing prediction, otherwise append `grantList`. -/
def grantAccess (s : ContractState) (pid : Nat) (sender : Address) :
    Except ContractError ContractState :=
  if s.predictions.length ≤ pid then
    .error .InvalidPrediction
  else
    .ok { s with grants := s.grants ++ grantList s pid sender }

/-- `getPredictionCount()` (source lines 139-141). -/
def getPredictionCount (s : ContractState) : Nat :=
  s.predictions.length

/-- `getPredictionMeta(predictionId)` (source lines 144-152). -/
def getPredictionMeta (s : ContractState) (pid : Nat) :
    Except ContractError (String × Nat × Nat × Address) :=
  if s.predictions.length ≤ pid then
    .error .InvalidPrediction
  else
    let p := s.predictions.getD pid default
    .ok (p.title, p.optionCount, p.createdAt, p.creator)

/-- `getPredictionOptions(predictionId)` (source lines 155-160). -/
def getPredictionOptions (s : ContractState) (pid : Nat) :
    Except ContractError (List String) :=
  if s.predictions.length ≤ pid then
    .error .InvalidPrediction
  else
    .ok (s.predictions.getD pid default).options

/-- `getPredictionTotals(predictionId)` (source lines 163-169): the pair of
encrypted totals (plaintext-equivalent values). -/
def getPredictionTotals (s : ContractState) (pid : Nat) :
    Except ContractError (Nat × Nat) :=
  if s.predictions.length ≤ pid then
    .error .InvalidPrediction
  else
    let p := s.predictions.getD pid default
    .ok (p.totalStaked, p.totalBets)

/-- `getOptionCounts(predictionId)` (source lines 172-182): copies the first
`optionCount` slots of the fixed array into a fresh array of exactly that
length. -/
def getOptionCounts (s : ContractState) (pid : Nat) :
    Except ContractError (List Nat) :=
  if s.predictions.length ≤ pid then
    .error .InvalidPrediction
  else
    let p := s.predictions.getD pid default
    .ok ((List.range p.optionCount).map (fun i => p.optionCounts.getD i 0))

/-- `getUserBet(predictionId, user)` (source lines 185-194): the stored bet
record, or the mapping's zero default when the user never bet. -/
def getUserBet (s : ContractState) (pid : Nat) (user : Address) :
    Except ContractError (Bool × Nat × Nat) :=
  if s.predictions.length ≤ pid then
    .error .InvalidPrediction
  else
    let b := findBet s pid user
    .ok (b.here, b.choice, b.amount)

/-- A mutating transaction submitted to the contract. -/
inductive Op where
  | create (title : String) (options : List String) (timestamp : Nat) (sender : Address)
  | bet (pid : Nat) (choiceExt : Nat) (value : Nat) (sender : Address)
  | grant (pid : Nat) (sender : Address)
deriving DecidableEq

/-- Execute one transaction: on a revert the state is unchanged
(all-or-nothing EVM semantics). -/
def runOp (s : ContractState) (op : Op) : ContractState :=
  match op with
  | .create t os ts u => match createPrediction s t os ts u with
    | .ok r => r.2
    | .error _ => s
  | .bet pid c v u => match placeBet s pid c v u with
    | .ok s' => s'
    | .error _ => s
  | .grant pid u => match grantAccess s pid u with
    | .ok s' => s'
    | .error _ => s

/-- Execute a sequence of transactions from a given state. -/
def execOps (s : ContractState) (ops : List Op) : ContractState :=
  ops.foldl runOp s

/-- A state is reachable when some transaction sequence produces it from the
freshly deployed contract. -/
def Reachable (s : ContractState) : Prop :=
  ∃ ops : List Op, execOps initState ops = s

/-- Sum of the plaintext-equivalent per-option counters
`optionCounts[0..k)`. -/
def countSum (k : Nat) (cs : List Nat) : Nat :=
  ((List.range k).map (fun i => cs.getD i 0)).sum

/-- The canonical public operation sequence of the aggregation loop for a
market with `k` options and bettor `u`: one equality-compare, one select,
one counter addition and two grants per option slot, in index order. -/
def loopTrace (u : Address) : Nat → List FheOp
  | 0 => []
  | k + 1 => loopTrace u k ++ [.eqConst k, .selOp, .addSlot k, .allowThisSlot k, .allowSlot k u]

/-- Whether a `placeBet` call passes all preconditions (does not revert). -/
def accepted (s : ContractState) (pid : Nat) (c : Nat) (v : Nat) (u : Address) : Bool :=
  match placeBet s pid c v u with
  | .ok _ => true
  | .error _ => false

/-- A single transaction is choice-in-range: if it is a bet that gets
accepted, the 8-bit plaintext of its encrypted choice is a valid option
index of its market.  Non-bet transactions are unconstrained. -/
def goodOp (s : ContractState) : Op → Bool
  | .bet pid c v u =>
    !(accepted s pid c v u) || decide (c % 2 ^ 8 < (s.predictions.getD pid default).optionCount)
  | _ => true

/-- Every accepted bet along the execution of `ops` has an in-range choice. -/
def goodTrace : ContractState → List Op → Bool
  | _, [] => true
  | s, op :: ops => goodOp s op && goodTrace (runOp s op) ops

/-- Well-formedness of a stored prediction: a length-4 counter array, an
option count in `[2,4]`, and all counters within their fixed widths, with
the slots past `optionCount` at zero. -/
def WFp (p : Prediction) : Prop :=
  p.optionCounts.length = 4 ∧ 2 ≤ p.optionCount ∧ p.optionCount ≤ 4 ∧
    p.totalBets < 2 ^ 32 ∧ p.totalStaked < 2 ^ 64 ∧
    (∀ j, p.optionCount ≤ j → p.optionCounts.getD j 0 = 0) ∧
    (∀ j, p.optionCounts.getD j 0 < 2 ^ 32)

/-- Well-formedness of a contract state: every stored prediction is
well-formed and every stored bet record has its existence flag set. -/
def WFs (s : ContractState) : Prop :=
  (∀ p ∈ s.predictions, WFp p) ∧ ∀ e ∈ s.bets, e.2.2.here = true

/-- Run a list of bets `(choiceExt, value, sender)` on one market,
propagating the first revert. -/
def runBets (pid : Nat) : List (Nat × Nat × Address) → ContractState →
    Except ContractError ContractState
  | [], s => .ok s
  | (c, v, u) :: l, s =>
    match placeBet s pid c v u with
    | .ok s' => runBets pid l s'
    | .error e => .error e

/-- The per-market invariant claimed by the specification, in wrapped
(`euint32`) arithmetic: for every stored prediction the sum of the option
counters over `[0, optionCount)` agrees with `totalBets` modulo `2^32`. -/
def SumInv (s : ContractState) : Prop :=
  ∀ p ∈ s.predictions, countSum p.optionCount p.optionCounts % 2 ^ 32 = p.totalBets

/-- A two-option market followed by two in-range bets: sender 1 stakes 10 on
option 0, sender 2 stakes 20 on option 1. -/
def sampleOps : List Op :=
  [.create "Weather" ["Sun", "Rain"] 0 7, .bet 0 0 10 1, .bet 0 1 20 2]

/-- A single two-option market and nothing else. -/
def oneMarketOps : List Op :=
  [.create "Weather" ["Sun", "Rain"] 0 7]

/-- A two-option market followed by an accepted bet whose encrypted choice
decodes to 5, outside `[0, 2)`. -/
def outOfRangeChoiceOps : List Op :=
  [.create "Weather" ["Sun", "Rain"] 0 7, .bet 0 5 10 1]

/-- A two-option market followed by an accepted bet staking the 64-bit
maximum. -/
def maxStakeOps : List Op :=
  [.create "Weather" ["Sun", "Rain"] 0 7, .bet 0 0 (2 ^ 64 - 1) 1]

theorem betLoop_trace (c : Nat) (u : Address) (cs : List Nat) :
    ∀ k, (betLoop c u cs k).2 = loopTrace u k := by
  intro k
  induction k with
  | zero => rfl
  | succ k ih => simp [betLoop, loopTrace, ih]

theorem betLoop_length (c : Nat) (u : Address) (cs : List Nat) :
    ∀ k, ((betLoop c u cs k).1).length = cs.length := by
  intro k
  induction k with
  | zero => rfl
  | succ k ih => simp [betLoop, List.length_set, ih]

theorem betLoop_getD_ge (c : Nat) (u : Address) (cs : List Nat) :
    ∀ k j, k ≤ j → ((betLoop c u cs k).1).getD j 0 = cs.getD j 0 := by
  intro k
  induction k with
  | zero => intro j _; rfl
  | succ k ih =>
    intro j hj
    have hk : k ≠ j := by omega
    simp only [betLoop, List.getD_eq_getElem?_getD, List.getElem?_set_ne hk]
    have := ih j (by omega)
    simpa [List.getD_eq_getElem?_getD] using this

theorem betLoop_getD_lt (c : Nat) (u : Address) (cs : List Nat) :
    ∀ k j, j < k → j < cs.length →
      ((betLoop c u cs k).1).getD j 0
        = (cs.getD j 0 + if c = j then 1 else 0) % 2 ^ 32 := by
  intro k
  induction k with
  | zero => intro j hj _; exact absurd hj (by omega)
  | succ k ih =>
    intro j hj hlen
    by_cases hjk : j < k
    · have hk : k ≠ j := by omega
      simp only [betLoop, List.getD_eq_getElem?_getD, List.getElem?_set_ne hk]
      have := ih j hjk hlen
      simpa [List.getD_eq_getElem?_getD] using this
    · have hjeq : j = k := by omega
      subst hjeq
      have hl : j < ((betLoop c u cs j).1).length := by
        rw [betLoop_length]; exact hlen
      simp only [betLoop, List.getD_eq_getElem?_getD, List.getElem?_set_self hl]
      have := betLoop_getD_ge c u cs j j (le_refl j)
      simp only [List.getD_eq_getElem?_getD] at this
      simp [this]

theorem countSum_zero (cs : List Nat) : countSum 0 cs = 0 := rfl

theorem countSum_succ (k : Nat) (cs : List Nat) :
    countSum (k + 1) cs = countSum k cs + cs.getD k 0 := by
  simp [countSum, List.range_succ]

theorem countSum_congr (k : Nat) (xs ys : List Nat)
    (h : ∀ i, i < k → xs.getD i 0 = ys.getD i 0) : countSum k xs = countSum k ys := by
  unfold countSum
  congr 1
  exact List.map_congr_left (fun i hi => h i (List.mem_range.mp hi))

theorem betLoop_countSum (c : Nat) (u : Address) (cs : List Nat) :
    ∀ k, k ≤ cs.length →
      countSum k ((betLoop c u cs k).1)
        ≡ countSum k cs + (if c < k then 1 else 0) [MOD 2 ^ 32] := by
  intro k
  induction k with
  | zero => intro _; simp [countSum_zero, Nat.ModEq.refl]
  | succ k ih =>
    intro hk
    have hklen : k < cs.length := by omega
    have hstep : countSum (k + 1) ((betLoop c u cs (k + 1)).1)
        = countSum k ((betLoop c u cs k).1)
          + ((cs.getD k 0 + if c = k then 1 else 0) % 2 ^ 32) := by
      rw [countSum_succ]
      congr 1
      · apply countSum_congr
        intro i hi
        have hne : k ≠ i := by omega
        simp only [betLoop, List.getD_eq_getElem?_getD, List.getElem?_set_ne hne]
      · have hl : k < ((betLoop c u cs k).1).length := by rw [betLoop_length]; omega
        have hg := betLoop_getD_ge c u cs k k (le_refl k)
        simp only [betLoop, List.getD_eq_getElem?_getD, List.getElem?_set_self hl]
        simp only [List.getD_eq_getElem?_getD] at hg
        simp [hg]
    rw [hstep, countSum_succ]
    have h1 : countSum k ((betLoop c u cs k).1)
          + ((cs.getD k 0 + if c = k then 1 else 0) % 2 ^ 32)
        ≡ (countSum k cs + (if c < k then 1 else 0))
          + (cs.getD k 0 + if c = k then 1 else 0) [MOD 2 ^ 32] :=
      Nat.ModEq.add (ih (by omega)) (Nat.mod_modEq _ _)
    refine h1.trans ?_
    have : (countSum k cs + (if c < k then 1 else 0))
          + (cs.getD k 0 + if c = k then 1 else 0)
        = countSum k cs + cs.getD k 0 + (if c < k + 1 then 1 else 0) := by
      by_cases h1 : c < k
      · have h2 : ¬ c = k := by omega
        simp [h1, h2, show c < k + 1 by omega]
        omega
      · by_cases h2 : c = k
        · simp [h1, h2]
          omega
        · simp [h1, h2, show ¬ c < k + 1 by omega]
    rw [this]

theorem getD_four_zeros : ∀ j, ([0, 0, 0, 0] : List Nat).getD j 0 = 0 := by
  intro j
  rcases j with _ | _ | _ | _ | j <;> rfl

theorem countSum_zeros (cs : List Nat) (h : ∀ j, cs.getD j 0 = 0) :
    ∀ k, countSum k cs = 0 := by
  intro k
  induction k with
  | zero => rfl
  | succ k ih => rw [countSum_succ, ih, h k]

theorem WFp_newPrediction (t : String) (os : List String) (ts : Nat) (u : Address)
    (h2 : 2 ≤ os.length) (h4 : os.length ≤ 4) : WFp (newPrediction t os ts u) := by
  unfold WFp newPrediction
  refine ⟨rfl, h2, h4, by norm_num, by norm_num, ?_, ?_⟩
  · intro j _; exact getD_four_zeros j
  · intro j; rw [getD_four_zeros j]; norm_num

theorem WFp_betUpdate (p : Prediction) (hp : WFp p) (ch a : Nat) (u : Address) :
    WFp { p with
          totalStaked := (p.totalStaked + a) % 2 ^ 64
          totalBets := (p.totalBets + 1) % 2 ^ 32
          optionCounts := (betLoop ch u p.optionCounts p.optionCount).1 } := by
  obtain ⟨hlen, h2, h4, _, _, hzero, hbound⟩ := hp
  refine ⟨?_, h2, h4, Nat.mod_lt _ (by norm_num), Nat.mod_lt _ (by norm_num), ?_, ?_⟩
  · simpa [betLoop_length] using hlen
  · intro j hj
    rw [betLoop_getD_ge ch u p.optionCounts p.optionCount j hj]
    exact hzero j hj
  · intro j
    by_cases hj : j < p.optionCount
    · rw [betLoop_getD_lt ch u p.optionCounts p.optionCount j hj (by omega)]
      exact Nat.mod_lt _ (by norm_num)
    · rw [betLoop_getD_ge ch u p.optionCounts p.optionCount j (by omega)]
      exact hbound j

theorem createPrediction_err (s : ContractState) (t : String) (os : List String)
    (ts : Nat) (u : Address) (h : os.length < 2 ∨ os.length > 4) :
    createPrediction s t os ts u = .error .InvalidOptions := by
  unfold createPrediction; rw [if_pos h]

theorem createPrediction_ok (s : ContractState) (t : String) (os : List String)
    (ts : Nat) (u : Address) (h2 : 2 ≤ os.length) (h4 : os.length ≤ 4) :
    createPrediction s t os ts u
      = .ok (s.predictions.length, createSuccState s t os ts u) := by
  unfold createPrediction; rw [if_neg (by omega)]

theorem placeBet_err_market (s : ContractState) (pid c v : Nat) (u : Address)
    (h : s.predictions.length ≤ pid) :
    placeBet s pid c v u = .error .InvalidPrediction := by
  unfold placeBet; rw [if_pos h]

theorem placeBet_err_amount (s : ContractState) (pid c v : Nat) (u : Address)
    (h1 : pid < s.predictions.length) (h : v = 0 ∨ v > 2 ^ 64 - 1) :
    placeBet s pid c v u = .error .InvalidBetAmount := by
  unfold placeBet; rw [if_neg (by omega), if_pos h]

theorem placeBet_err_already (s : ContractState) (pid c v : Nat) (u : Address)
    (h1 : pid < s.predictions.length) (h2 : ¬(v = 0 ∨ v > 2 ^ 64 - 1))
    (h : (findBet s pid u).here = true) :
    placeBet s pid c v u = .error .BetAlreadyPlaced := by
  unfold placeBet; rw [if_neg (by omega), if_neg h2, if_pos h]

theorem placeBet_ok (s : ContractState) (pid c v : Nat) (u : Address)
    (h1 : pid < s.predictions.length) (h2 : v ≠ 0) (h3 : v ≤ 2 ^ 64 - 1)
    (h4 : (findBet s pid u).here = false) :
    placeBet s pid c v u = .ok (betSuccState s pid c v u) := by
  unfold placeBet
  rw [if_neg (by omega), if_neg (by omega), if_neg (by simp [h4])]

theorem grantAccess_err (s : ContractState) (pid : Nat) (u : Address)
    (h : s.predictions.length ≤ pid) :
    grantAccess s pid u = .error .InvalidPrediction := by
  unfold grantAccess; rw [if_pos h]

theorem grantAccess_ok (s : ContractState) (pid : Nat) (u : Address)
    (h : pid < s.predictions.length) :
    grantAccess s pid u = .ok { s with grants := s.grants ++ grantList s pid u } := by
  unfold grantAccess; rw [if_neg (by omega)]

theorem runOp_create (s : ContractState) (t : String) (os : List String)
    (ts : Nat) (u : Address) :
    runOp s (.create t os ts u)
      = (match createPrediction s t os ts u with
         | .ok r => r.2
         | .error _ => s) := rfl

theorem runOp_bet (s : ContractState) (pid c v : Nat) (u : Address) :
    runOp s (.bet pid c v u)
      = (match placeBet s pid c v u with
         | .ok s' => s'
         | .error _ => s) := rfl

theorem runOp_grant (s : ContractState) (pid : Nat) (u : Address) :
    runOp s (.grant pid u)
      = (match grantAccess s pid u with
         | .ok s' => s'
         | .error _ => s) := rfl

theorem getD_mem (l : List Prediction) (pid : Nat) (h : pid < l.length) :
    l.getD pid default ∈ l := by
  have := List.getD_eq_getElem l default h
  rw [this]
  exact List.getElem_mem h

theorem WFs_runOp (s : ContractState) (op : Op) (hs : WFs s) : WFs (runOp s op) := by
  obtain ⟨hpred, hbet⟩ := hs
  cases op with
  | create t os ts u =>
    by_cases hg : os.length < 2 ∨ os.length > 4
    · rw [runOp_create, createPrediction_err s t os ts u hg]; exact ⟨hpred, hbet⟩
    · push_neg at hg
      rw [runOp_create, createPrediction_ok s t os ts u (by omega) (by omega)]
      refine ⟨?_, hbet⟩
      intro p hp
      simp only [createSuccState, List.mem_append, List.mem_singleton] at hp
      rcases hp with hp | hp
      · exact hpred p hp
      · subst hp; exact WFp_newPrediction t os ts u (by omega) (by omega)
  | grant pid u =>
    by_cases hg : s.predictions.length ≤ pid
    · rw [runOp_grant, grantAccess_err s pid u hg]; exact ⟨hpred, hbet⟩
    · rw [runOp_grant, grantAccess_ok s pid u (by omega)]
      exact ⟨hpred, hbet⟩
  | bet pid c v u =>
    by_cases h1 : s.predictions.length ≤ pid
    · rw [runOp_bet, placeBet_err_market s pid c v u h1]; exact ⟨hpred, hbet⟩
    by_cases h2 : v = 0 ∨ v > 2 ^ 64 - 1
    · rw [runOp_bet, placeBet_err_amount s pid c v u (by omega) h2]; exact ⟨hpred, hbet⟩
    by_cases h3 : (findBet s pid u).here
    · rw [runOp_bet, placeBet_err_already s pid c v u (by omega) h2 h3]; exact ⟨hpred, hbet⟩
    rw [runOp_bet, placeBet_ok s pid c v u (by omega) (by tauto) (by omega)
        (Bool.not_eq_true _ ▸ h3)]
    constructor
    · intro p hp
      rcases List.mem_or_eq_of_mem_set hp with hp | hp
      · exact hpred p hp
      · subst hp
        exact WFp_betUpdate _ (hpred _ (getD_mem s.predictions pid (by omega))) _ _ u
    · intro e he
      rcases List.mem_cons.mp he with he | he
      · subst he; rfl
      · exact hbet e he

theorem WFs_initState : WFs initState := by
  constructor <;> intro x hx <;> simp [initState] at hx

theorem SumInv_initState : SumInv initState := by
  intro p hp; simp [initState] at hp

theorem WFs_execOps (ops : List Op) (s : ContractState) (hs : WFs s) :
    WFs (execOps s ops) := by
  induction ops generalizing s with
  | nil => exact hs
  | cons op ops ih => exact ih (runOp s op) (WFs_runOp s op hs)

theorem SumInv_runOp (s : ContractState) (op : Op) (hwf : WFs s) (hsum : SumInv s)
    (hgood : goodOp s op = true) : SumInv (runOp s op) := by
  cases op with
  | create t os ts u =>
    by_cases hg : os.length < 2 ∨ os.length > 4
    · rw [runOp_create, createPrediction_err s t os ts u hg]; exact hsum
    · push_neg at hg
      rw [runOp_create, createPrediction_ok s t os ts u (by omega) (by omega)]
      intro p hp
      simp only [createSuccState, List.mem_append, List.mem_singleton] at hp
      rcases hp with hp | hp
      · exact hsum p hp
      · subst hp
        simp only [newPrediction]
        rw [countSum_zeros _ getD_four_zeros _]
        rfl
  | grant pid u =>
    by_cases hg : s.predictions.length ≤ pid
    · rw [runOp_grant, grantAccess_err s pid u hg]; exact hsum
    · rw [runOp_grant, grantAccess_ok s pid u (by omega)]; exact hsum
  | bet pid c v u =>
    by_cases h1 : s.predictions.length ≤ pid
    · rw [runOp_bet, placeBet_err_market s pid c v u h1]; exact hsum
    by_cases h2 : v = 0 ∨ v > 2 ^ 64 - 1
    · rw [runOp_bet, placeBet_err_amount s pid c v u (by omega) h2]; exact hsum
    by_cases h3 : (findBet s pid u).here
    · rw [runOp_bet, placeBet_err_already s pid c v u (by omega) h2 h3]; exact hsum
    have hok := placeBet_ok s pid c v u (by omega) (by tauto) (by omega)
        (Bool.not_eq_true _ ▸ h3)
    have hacc : accepted s pid c v u = true := by unfold accepted; rw [hok]
    have hin : c % 2 ^ 8 < (s.predictions.getD pid default).optionCount := by
      simp only [goodOp, hacc, Bool.not_true, Bool.false_or, decide_eq_true_eq] at hgood
      exact hgood
    rw [runOp_bet, hok]
    intro p hp
    rcases List.mem_or_eq_of_mem_set hp with hp | hp
    · exact hsum p hp
    · subst hp
      have hmem := getD_mem s.predictions pid (by omega)
      obtain ⟨hlen, _, h4, _, _, _, _⟩ := hwf.1 _ hmem
      have h := betLoop_countSum (c % 2 ^ 8) u
        (s.predictions.getD pid default).optionCounts
        (s.predictions.getD pid default).optionCount (by omega)
      simp only [betSuccState]
      rw [if_pos hin] at h
      calc countSum (s.predictions.getD pid default).optionCount
            ((betLoop (c % 2 ^ 8) u (s.predictions.getD pid default).optionCounts
              (s.predictions.getD pid default).optionCount).1) % 2 ^ 32
          = (countSum (s.predictions.getD pid default).optionCount
              (s.predictions.getD pid default).optionCounts + 1) % 2 ^ 32 := h
        _ = (countSum (s.predictions.getD pid default).optionCount
              (s.predictions.getD pid default).optionCounts % 2 ^ 32 + 1 % 2 ^ 32)
              % 2 ^ 32 := Nat.add_mod _ _ _
        _ = ((s.predictions.getD pid default).totalBets + 1) % 2 ^ 32 := by
              rw [hsum _ hmem]; norm_num

theorem SumInv_execOps (ops : List Op) (s : ContractState) (hwf : WFs s)
    (hsum : SumInv s) (hgood : goodTrace s ops = true) :
    SumInv (execOps s ops) := by
  induction ops generalizing s with
  | nil => exact hsum
  | cons op ops ih =>
    have hg : goodOp s op = true ∧ goodTrace (runOp s op) ops = true := by
      simpa [goodTrace, Bool.and_eq_true] using hgood
    exact ih (runOp s op) (WFs_runOp s op hwf) (SumInv_runOp s op hwf hsum hg.1) hg.2

theorem placeBet_ok_inv (s : ContractState) (pid c v : Nat) (u : Address)
    (s' : ContractState) (h : placeBet s pid c v u = .ok s') :
    pid < s.predictions.length ∧ 0 < v ∧ v ≤ 2 ^ 64 - 1 ∧
      (findBet s pid u).here = false ∧ s' = betSuccState s pid c v u := by
  by_cases h1 : s.predictions.length ≤ pid
  · rw [placeBet_err_market s pid c v u h1] at h; cases h
  by_cases h2 : v = 0 ∨ v > 2 ^ 64 - 1
  · rw [placeBet_err_amount s pid c v u (by omega) h2] at h; cases h
  by_cases h3 : (findBet s pid u).here
  · rw [placeBet_err_already s pid c v u (by omega) h2 h3] at h; cases h
  rw [placeBet_ok s pid c v u (by omega) (by tauto) (by omega)
      (Bool.not_eq_true _ ▸ h3)] at h
  exact ⟨by omega, by omega, by omega, Bool.not_eq_true _ ▸ h3, (Except.ok.inj h).symm⟩

theorem getD_set_self (l : List Prediction) (pid : Nat) (p : Prediction)
    (h : pid < l.length) : (l.set pid p).getD pid default = p := by
  rw [List.getD_eq_getElem?_getD, List.getElem?_set_self h]
  rfl

theorem getD_set_ne (l : List Prediction) (pid q : Nat) (p : Prediction)
    (h : pid ≠ q) : (l.set pid p).getD q default = l.getD q default := by
  rw [List.getD_eq_getElem?_getD, List.getElem?_set_ne h, ← List.getD_eq_getElem?_getD]

theorem getD_append_left (l : List Prediction) (l' : List Prediction) (pid : Nat)
    (h : pid < l.length) : (l ++ l').getD pid default = l.getD pid default := by
  rw [List.getD_eq_getElem?_getD, List.getElem?_append_left h, ← List.getD_eq_getElem?_getD]

theorem totals_bound (s : ContractState) (hwf : WFs s) (pid : Nat) :
    (s.predictions.getD pid default).totalStaked < 2 ^ 64 ∧
      (s.predictions.getD pid default).totalBets < 2 ^ 32 := by
  by_cases h : pid < s.predictions.length
  · have := hwf.1 _ (getD_mem _ pid h)
    exact ⟨this.2.2.2.2.1, this.2.2.2.1⟩
  · rw [List.getD_eq_default _ _ (by omega)]
    exact ⟨by decide, by decide⟩

theorem loopTrace_addSlot_mem (u : Address) : ∀ k i, i < k →
    FheOp.addSlot i ∈ loopTrace u k := by
  intro k
  induction k with
  | zero => intro i hi; omega
  | succ k ih =>
    intro i hi
    unfold loopTrace
    rw [List.mem_append]
    by_cases h : i < k
    · exact Or.inl (ih i h)
    · have : i = k := by omega
      subst this
      exact Or.inr (by simp)

theorem betSuccState_getD (s : ContractState) (pid c v : Nat) (u : Address)
    (h : pid < s.predictions.length) :
    (betSuccState s pid c v u).predictions.getD pid default
      = { s.predictions.getD pid default with
          totalStaked := ((s.predictions.getD pid default).totalStaked + v % 2 ^ 64) % 2 ^ 64
          totalBets := ((s.predictions.getD pid default).totalBets + 1) % 2 ^ 32
          optionCounts := (betLoop (c % 2 ^ 8) u
            (s.predictions.getD pid default).optionCounts
            (s.predictions.getD pid default).optionCount).1 } := by
  unfold betSuccState
  exact getD_set_self _ pid _ h

theorem betSuccState_length (s : ContractState) (pid c v : Nat) (u : Address) :
    (betSuccState s pid c v u).predictions.length = s.predictions.length := by
  unfold betSuccState
  exact List.length_set _ _ _

theorem runBets_totals (pid : Nat) :
    ∀ (l : List (Nat × Nat × Address)) (s s' : ContractState),
      (s.predictions.getD pid default).totalStaked < 2 ^ 64 →
      (s.predictions.getD pid default).totalBets < 2 ^ 32 →
      runBets pid l s = .ok s' →
      (s'.predictions.getD pid default).totalStaked
        = ((s.predictions.getD pid default).totalStaked
            + (l.map (fun e => e.2.1)).sum) % 2 ^ 64 ∧
      (s'.predictions.getD pid default).totalBets
        = ((s.predictions.getD pid default).totalBets + l.length) % 2 ^ 32 := by
  intro l
  induction l with
  | nil =>
    intro s s' ht hb h
    have hss : s = s' := by
      unfold runBets at h
      exact Except.ok.inj h
    subst hss
    constructor
    · rw [List.map_nil, List.sum_nil, Nat.add_zero, Nat.mod_eq_of_lt ht]
    · rw [List.length_nil, Nat.add_zero, Nat.mod_eq_of_lt hb]
  | cons e l ih =>
    intro s s' ht hb h
    rcases e with ⟨c, v, u⟩
    unfold runBets at h
    cases hpb : placeBet s pid c v u with
    | error err => rw [hpb] at h; cases h
    | ok s₁ =>
      rw [hpb] at h
      obtain ⟨hpid, hv0, hvle, _, hs₁⟩ := placeBet_ok_inv s pid c v u s₁ hpb
      have hget := betSuccState_getD s pid c v u hpid
      have hvmod : v % 2 ^ 64 = v := Nat.mod_eq_of_lt (by omega)
      have ht₁ : (s₁.predictions.getD pid default).totalStaked
          = ((s.predictions.getD pid default).totalStaked + v) % 2 ^ 64 := by
        rw [hs₁, hget, hvmod]
      have hb₁ : (s₁.predictions.getD pid default).totalBets
          = ((s.predictions.getD pid default).totalBets + 1) % 2 ^ 32 := by
        rw [hs₁, hget]
      obtain ⟨ih1, ih2⟩ := ih s₁ s'
        (by rw [ht₁]; exact Nat.mod_lt _ (by norm_num))
        (by rw [hb₁]; exact Nat.mod_lt _ (by norm_num)) h
      constructor
      · rw [ih1, ht₁, Nat.mod_add_mod]
        simp [List.map_cons, List.sum_cons]
        ring_nf
      · rw [ih2, hb₁, Nat.mod_add_mod]
        simp [List.length_cons]
        ring_nf

/-- C3: `placeBet` checks its preconditions in order, each short-circuiting
with a distinct error: a non-existent market fails with `InvalidPrediction`;
then a stake outside `0 < v ≤ 2^64-1` fails with `InvalidBetAmount` (a stake
of exactly `2^64-1` passes this check); then an existing bet for the
(market, caller) pair fails with `BetAlreadyPlaced`; when all pass the bet
is accepted, and every failure leaves the state unchanged. -/
theorem C3_placeBet_guard_order (s : ContractState) (pid c v : Nat) (u : Address) :
    (s.predictions.length ≤ pid →
      placeBet s pid c v u = .error .InvalidPrediction) ∧
    (pid < s.predictions.length → (v = 0 ∨ 2 ^ 64 - 1 < v) →
      placeBet s pid c v u = .error .InvalidBetAmount) ∧
    (pid < s.predictions.length → 0 < v → v ≤ 2 ^ 64 - 1 →
      (findBet s pid u).here = true →
      placeBet s pid c v u = .error .BetAlreadyPlaced) ∧
    (pid < s.predictions.length → 0 < v → v ≤ 2 ^ 64 - 1 →
      (findBet s pid u).here = false →
      placeBet s pid c v u = .ok (betSuccState s pid c v u)) ∧
    (∀ e, placeBet s pid c v u = .error e → runOp s (.bet pid c v u) = s) := by
  refine ⟨?_, ?_, ?_, ?_, ?_⟩
  · exact placeBet_err_market s pid c v u
  · exact placeBet_err_amount s pid c v u
  · intro h1 h2 h3 h4
    exact placeBet_err_already s pid c v u h1 (by omega) h4
  · intro h1 h2 h3 h4
    exact placeBet_ok s pid c v u h1 (by omega) h3 h4
  · intro e he
    rw [runOp_bet, he]

/-- C3 witness: on a one-market state, a first bet with the maximal valid
stake `2^64 - 1` is accepted. -/
theorem C3_placeBet_guard_order_witness :
    placeBet (execOps initState oneMarketOps) 0 1 (2 ^ 64 - 1) 5
      = .ok (betSuccState (execOps initState oneMarketOps) 0 1 (2 ^ 64 - 1) 5) :=
  (C3_placeBet_guard_order (execOps initState oneMarketOps) 0 1 (2 ^ 64 - 1) 5).2.2.2.1
    (by decide) (by decide) (by decide) (by decide)

/-- C7: `createPrediction` fails with `InvalidOptions` exactly when the
option list length is outside `[2,4]`; on success it returns the prior
market count as the new id, appends exactly one market, and the market
count grows by exactly 1. -/
theorem C7_createPrediction_spec (s : ContractState) (t : String)
    (os : List String) (ts : Nat) (u : Address) :
    (createPrediction s t os ts u = .error .InvalidOptions ↔
      os.length < 2 ∨ 4 < os.length) ∧
    (2 ≤ os.length → os.length ≤ 4 →
      createPrediction s t os ts u
          = .ok (getPredictionCount s, createSuccState s t os ts u) ∧
      (createSuccState s t os ts u).predictions
          = s.predictions ++ [newPrediction t os ts u] ∧
      getPredictionCount (createSuccState s t os ts u) = getPredictionCount s + 1) := by
  constructor
  · constructor
    · intro h
      by_cases hg : os.length < 2 ∨ os.length > 4
      · exact hg
      · rw [createPrediction_ok s t os ts u (by omega) (by omega)] at h
        cases h
    · exact createPrediction_err s t os ts u
  · intro h2 h4
    refine ⟨createPrediction_ok s t os ts u h2 h4, rfl, ?_⟩
    simp [getPredictionCount, createSuccState]

/-- C7 witness: creating a two-option market on the fresh contract returns
id 0 and leaves one market. -/
theorem C7_createPrediction_spec_witness :
    createPrediction initState "Weather" ["Sun", "Rain"] 0 7
        = .ok (getPredictionCount initState,
            createSuccState initState "Weather" ["Sun", "Rain"] 0 7) ∧
    (createSuccState initState "Weather" ["Sun", "Rain"] 0 7).predictions
        = initState.predictions ++ [newPrediction "Weather" ["Sun", "Rain"] 0 7] ∧
    getPredictionCount (createSuccState initState "Weather" ["Sun", "Rain"] 0 7)
        = getPredictionCount initState + 1 :=
  (C7_createPrediction_spec initState "Weather" ["Sun", "Rain"] 0 7).2
    (by decide) (by decide)

/-- C10: every read taking a market id — totals, option counts, user bet,
metadata, options — fails with `InvalidPrediction` exactly when the id is
at least the market count; in particular `getUserBet` on an out-of-range id
reverts instead of returning `exists = false`. -/
theorem C10_read_range_guard (s : ContractState) (pid : Nat) (a : Address) :
    (getPredictionTotals s pid = .error .InvalidPrediction ↔
      s.predictions.length ≤ pid) ∧
    (getOptionCounts s pid = .error .InvalidPrediction ↔
      s.predictions.length ≤ pid) ∧
    (getUserBet s pid a = .error .InvalidPrediction ↔
      s.predictions.length ≤ pid) ∧
    (getPredictionMeta s pid = .error .InvalidPrediction ↔
      s.predictions.length ≤ pid) ∧
    (getPredictionOptions s pid = .error .InvalidPrediction ↔
      s.predictions.length ≤ pid) := by
  by_cases h : s.predictions.length ≤ pid <;>
    refine ⟨?_, ?_, ?_, ?_, ?_⟩ <;>
      simp [getPredictionTotals, getOptionCounts, getUserBet, getPredictionMeta,
        getPredictionOptions, h]

theorem getUserBet_in_range (s : ContractState) (pid : Nat) (a : Address)
    (h : pid < s.predictions.length) :
    getUserBet s pid a
      = .ok ((findBet s pid a).here, (findBet s pid a).choice, (findBet s pid a).amount) := by
  unfold getUserBet
  rw [if_neg (by omega)]

/-- C9: on an existing market, a participant with no recorded bet gets
`exists = false` with zero-valued encrypted fields from `getUserBet`, and a
participant with a recorded bet gets `exists = true` together with the
recorded encrypted choice and amount. -/
theorem C9_getUserBet_spec (ops : List Op) (pid : Nat) (a : Address)
    (hpid : pid < (execOps initState ops).predictions.length) :
    (lookupBet (execOps initState ops) pid a = none →
      getUserBet (execOps initState ops) pid a = .ok (false, 0, 0)) ∧
    (∀ e, lookupBet (execOps initState ops) pid a = some e →
      e.2.2.here = true ∧
      getUserBet (execOps initState ops) pid a
        = .ok (true, e.2.2.choice, e.2.2.amount)) := by
  constructor
  · intro hnone
    rw [getUserBet_in_range _ _ _ hpid]
    unfold findBet
    rw [hnone]
    rfl
  · intro e hsome
    have hmem : e ∈ (execOps initState ops).bets :=
      List.mem_of_find?_eq_some hsome
    have hhere : e.2.2.here = true :=
      (WFs_execOps ops initState WFs_initState).2 e hmem
    refine ⟨hhere, ?_⟩
    rw [getUserBet_in_range _ _ _ hpid]
    unfold findBet
    rw [hsome]
    simp [hhere]

/-- C9 witness: on the sample trace, address 9 (no bet) reads
`(false, 0, 0)` and address 1 reads back its recorded bet. -/
theorem C9_getUserBet_spec_witness :
    getUserBet (execOps initState sampleOps) 0 9 = .ok (false, 0, 0) :=
  (C9_getUserBet_spec sampleOps 0 9 (by decide)).1 (by decide)

theorem grantList_congr (s s₁ : ContractState) (pid : Nat) (u : Address)
    (h1 : s₁.predictions = s.predictions) (h2 : s₁.bets = s.bets) :
    grantList s₁ pid u = grantList s pid u := by
  unfold grantList findBet lookupBet
  rw [h1, h2]

theorem runOp_grant_ok (s : ContractState) (pid : Nat) (u : Address)
    (h : pid < s.predictions.length) :
    runOp s (.grant pid u) = { s with grants := s.grants ++ grantList s pid u } := by
  rw [runOp_grant, grantAccess_ok s pid u h]

/-- C8: `grantAccess` fails with `InvalidPrediction` exactly when the market
id is out of range; on an existing market it modifies no prediction or bet
record, appends exactly the caller's grants on `totalStaked`, `totalBets`
and `optionCounts[0..optionCount)` — plus the caller's own bet fields
exactly when such a bet exists — and calling it twice adds nothing beyond
redundant permission records. -/
theorem C8_grantAccess_spec (s : ContractState) (pid q : Nat) (u : Address)
    (hpid : pid < s.predictions.length) :
    (grantAccess s q u = .error .InvalidPrediction ↔ s.predictions.length ≤ q) ∧
    ((runOp s (.grant pid u)).predictions = s.predictions ∧
      (runOp s (.grant pid u)).bets = s.bets) ∧
    (∀ g, g ∈ (runOp s (.grant pid u)).grants ↔
      g ∈ s.grants ∨ g ∈ grantList s pid u) ∧
    ((HandleRef.stakedRef pid, u) ∈ (runOp s (.grant pid u)).grants ∧
      (HandleRef.betsRef pid, u) ∈ (runOp s (.grant pid u)).grants ∧
      ∀ i, i < (s.predictions.getD pid default).optionCount →
        (HandleRef.countRef pid i, u) ∈ (runOp s (.grant pid u)).grants) ∧
    ((findBet s pid u).here = true →
      (HandleRef.choiceRef pid u, u) ∈ (runOp s (.grant pid u)).grants ∧
      (HandleRef.amountRef pid u, u) ∈ (runOp s (.grant pid u)).grants) ∧
    ((findBet s pid u).here = false →
      ((HandleRef.choiceRef pid u, u) ∈ (runOp s (.grant pid u)).grants ↔
        (HandleRef.choiceRef pid u, u) ∈ s.grants)) ∧
    ((runOp (runOp s (.grant pid u)) (.grant pid u)).predictions
        = (runOp s (.grant pid u)).predictions ∧
      (runOp (runOp s (.grant pid u)) (.grant pid u)).bets
        = (runOp s (.grant pid u)).bets ∧
      ∀ g, g ∈ (runOp (runOp s (.grant pid u)) (.grant pid u)).grants ↔
        g ∈ (runOp s (.grant pid u)).grants) := by
  have hrun := runOp_grant_ok s pid u hpid
  refine ⟨?_, ?_, ?_, ?_, ?_, ?_, ?_⟩
  · by_cases hq : s.predictions.length ≤ q
    · rw [grantAccess_err s q u hq]; simp [hq]
    · rw [grantAccess_ok s q u (by omega)]; simp [hq]
  · rw [hrun]; exact ⟨rfl, rfl⟩
  · intro g; rw [hrun]; simp [List.mem_append]
  · refine ⟨?_, ?_, ?_⟩
    · rw [hrun]; simp [grantList, List.mem_append]
    · rw [hrun]; simp [grantList, List.mem_append]
    · intro i hi
      have hmap : (HandleRef.countRef pid i, u)
          ∈ (List.range (s.predictions.getD pid default).optionCount).map
              (fun j => ((HandleRef.countRef pid j, u) : HandleRef × Address)) :=
        List.mem_map.mpr ⟨i, List.mem_range.mpr hi, rfl⟩
      have hgl : (HandleRef.countRef pid i, u) ∈ grantList s pid u := by
        unfold grantList
        exact List.mem_append.mpr (Or.inl (List.mem_append.mpr (Or.inr hmap)))
      rw [hrun]
      exact List.mem_append.mpr (Or.inr hgl)
  · intro h
    rw [hrun]
    constructor <;> simp [grantList, List.mem_append, h]
  · intro h
    rw [hrun]
    simp [grantList, List.mem_append, h]
  · have hpred : (runOp s (.grant pid u)).predictions = s.predictions := by
      rw [hrun]
    have hbets : (runOp s (.grant pid u)).bets = s.bets := by
      rw [hrun]
    have hrun₂ := runOp_grant_ok (runOp s (.grant pid u)) pid u (by rw [hpred]; exact hpid)
    have hgl := grantList_congr s (runOp s (.grant pid u)) pid u hpred hbets
    refine ⟨by rw [hrun₂], by rw [hrun₂], ?_⟩
    intro g
    rw [hrun₂, hgl, hrun]
    simp [List.mem_append]

/-- C8 witness: on a one-market state, granting access to address 9 records
its permission on the market's `totalStaked` handle. -/
theorem C8_grantAccess_spec_witness :
    (HandleRef.stakedRef 0, 9)
      ∈ (runOp (execOps initState oneMarketOps) (.grant 0 9)).grants :=
  (C8_grantAccess_spec (execOps initState oneMarketOps) 0 0 9 (by decide)).2.2.2.1.1

theorem getD_range_map (f : Nat → Nat) (k i : Nat) (h : i < k) :
    ((List.range k).map f).getD i 0 = f i := by
  rw [List.getD_eq_getElem _ _ (by simpa using h)]
  simp

/-- C2: every accepted bet updates the per-option counters through the
oblivious branchless loop: the new counters are exactly `betLoop`'s output;
for each `i` in `[0, optionCount)` the counter at `i` receives the
encrypted-select of 1 or 0 from the equality of the secret 8-bit choice
with `i` (wrapping 32-bit add); the emitted FHE-operation and
counter-access sequence equals the canonical full-width trace `loopTrace`,
which touches every slot and is identical for any two secret choices. -/
theorem C2_oblivious_aggregation (s : ContractState) (pid c v : Nat) (u : Address)
    (s' : ContractState) (hwf : WFs s) (hok : placeBet s pid c v u = .ok s')
    (c' : Nat) :
    ((s'.predictions.getD pid default).optionCounts
      = (betLoop (c % 2 ^ 8) u (s.predictions.getD pid default).optionCounts
          (s.predictions.getD pid default).optionCount).1) ∧
    (∀ i, i < (s.predictions.getD pid default).optionCount →
      (s'.predictions.getD pid default).optionCounts.getD i 0
        = ((s.predictions.getD pid default).optionCounts.getD i 0
            + (if c % 2 ^ 8 = i then 1 else 0)) % 2 ^ 32) ∧
    ((betLoop (c % 2 ^ 8) u (s.predictions.getD pid default).optionCounts
        (s.predictions.getD pid default).optionCount).2
      = loopTrace u (s.predictions.getD pid default).optionCount) ∧
    ((betLoop (c' % 2 ^ 8) u (s.predictions.getD pid default).optionCounts
        (s.predictions.getD pid default).optionCount).2
      = (betLoop (c % 2 ^ 8) u (s.predictions.getD pid default).optionCounts
          (s.predictions.getD pid default).optionCount).2) ∧
    (∀ i, i < (s.predictions.getD pid default).optionCount →
      FheOp.addSlot i ∈ loopTrace u (s.predictions.getD pid default).optionCount) := by
  obtain ⟨hpid, _, _, _, hs'⟩ := placeBet_ok_inv s pid c v u s' hok
  obtain ⟨hlen, _, h4, _, _, _, _⟩ := hwf.1 _ (getD_mem s.predictions pid hpid)
  have hcounts : (s'.predictions.getD pid default).optionCounts
      = (betLoop (c % 2 ^ 8) u (s.predictions.getD pid default).optionCounts
          (s.predictions.getD pid default).optionCount).1 := by
    rw [hs', betSuccState_getD s pid c v u hpid]
  refine ⟨hcounts, ?_, ?_, ?_, ?_⟩
  · intro i hi
    rw [hcounts]
    exact betLoop_getD_lt (c % 2 ^ 8) u _ _ i hi (by omega)
  · exact betLoop_trace (c % 2 ^ 8) u _ _
  · rw [betLoop_trace, betLoop_trace]
  · exact loopTrace_addSlot_mem u _

/-- C2 witness: a concrete accepted bet on the one-market state, with the
traces of two different choices compared. -/
theorem C2_oblivious_aggregation_witness :
    ((execOps initState sampleOps).predictions.getD 0 default).optionCounts
      = (betLoop (1 % 2 ^ 8) 2
          ((execOps initState [.create "Weather" ["Sun", "Rain"] 0 7, .bet 0 0 10 1]).predictions.getD
            0 default).optionCounts
          ((execOps initState [.create "Weather" ["Sun", "Rain"] 0 7, .bet 0 0 10 1]).predictions.getD
            0 default).optionCount).1 :=
  (C2_oblivious_aggregation
      (execOps initState [.create "Weather" ["Sun", "Rain"] 0 7, .bet 0 0 10 1]) 0 1 20 2
      (execOps initState sampleOps)
      (WFs_execOps [.create "Weather" ["Sun", "Rain"] 0 7, .bet 0 0 10 1] initState
        WFs_initState)
      (by decide) 3).1

/-- C4: starting from a market with zero totals, after any sequence of
accepted bets with stakes `a1..aN` the plaintext-equivalent `totalStaked`
is `sum(a1..aN) mod 2^64` and `totalBets` is `N mod 2^32`; below the
wrap boundaries the values are exact. -/
theorem C4_totals_accumulate (s : ContractState) (pid : Nat)
    (l : List (Nat × Nat × Address)) (s' : ContractState)
    (h0 : (s.predictions.getD pid default).totalStaked = 0)
    (hb0 : (s.predictions.getD pid default).totalBets = 0)
    (hrun : runBets pid l s = .ok s') :
    ((s'.predictions.getD pid default).totalStaked
        = (l.map (fun e => e.2.1)).sum % 2 ^ 64 ∧
      (s'.predictions.getD pid default).totalBets = l.length % 2 ^ 32) ∧
    ((l.map (fun e => e.2.1)).sum < 2 ^ 64 →
      (s'.predictions.getD pid default).totalStaked = (l.map (fun e => e.2.1)).sum) ∧
    (l.length < 2 ^ 32 →
      (s'.predictions.getD pid default).totalBets = l.length) := by
  obtain ⟨h1, h2⟩ := runBets_totals pid l s s' (by rw [h0]; norm_num)
    (by rw [hb0]; norm_num) hrun
  rw [h0] at h1
  rw [hb0] at h2
  simp only [Nat.zero_add] at h1 h2
  refine ⟨⟨h1, h2⟩, ?_, ?_⟩
  · intro hlt; rw [h1, Nat.mod_eq_of_lt hlt]
  · intro hlt; rw [h2, Nat.mod_eq_of_lt hlt]

/-- C4 witness: two accepted bets of 10 and 20 leave totals (30, 2). -/
theorem C4_totals_accumulate_witness :
    ((execOps initState sampleOps).predictions.getD 0 default).totalStaked = 30 ∧
    ((execOps initState sampleOps).predictions.getD 0 default).totalBets = 2 :=
  ⟨((C4_totals_accumulate (execOps initState oneMarketOps) 0
      [(0, 10, 1), (1, 20, 2)] (execOps initState sampleOps)
      (by decide) (by decide) (by decide)).2.1 (by decide)).trans (by decide),
   ((C4_totals_accumulate (execOps initState oneMarketOps) 0
      [(0, 10, 1), (1, 20, 2)] (execOps initState sampleOps)
      (by decide) (by decide) (by decide)).2.2 (by decide)).trans (by decide)⟩

/-- C6: in every reachable state, the option-counter slots at and beyond
`optionCount` in the fixed 4-slot array are zero, and `getOptionCounts`
returns exactly `optionCount` counters, the first `optionCount` slots and
nothing beyond them. -/
theorem C6_unused_slots (ops : List Op) (pid : Nat)
    (hpid : pid < (execOps initState ops).predictions.length) :
    (∀ j, ((execOps initState ops).predictions.getD pid default).optionCount ≤ j →
      ((execOps initState ops).predictions.getD pid default).optionCounts.getD j 0 = 0) ∧
    (∀ l, getOptionCounts (execOps initState ops) pid = .ok l →
      l.length = ((execOps initState ops).predictions.getD pid default).optionCount ∧
      ∀ i, i < l.length →
        l.getD i 0
          = ((execOps initState ops).predictions.getD pid default).optionCounts.getD i 0) := by
  have hwf := WFs_execOps ops initState WFs_initState
  have hp := hwf.1 _ (getD_mem _ pid hpid)
  refine ⟨hp.2.2.2.2.2.1, ?_⟩
  intro l hl
  unfold getOptionCounts at hl
  rw [if_neg (by omega)] at hl
  have hleq := Except.ok.inj hl
  subst hleq
  constructor
  · simp
  · intro i hi
    simp only [List.length_map, List.length_range] at hi
    exact getD_range_map _ _ i hi

/-- C6 witness: on the sample trace the two-option market keeps slot 2 at
zero and exposes exactly its two counters. -/
theorem C6_unused_slots_witness :
    ((execOps initState sampleOps).predictions.getD 0 default).optionCounts.getD 2 0 = 0 ∧
    ([1, 1] : List Nat).length
        = ((execOps initState sampleOps).predictions.getD 0 default).optionCount ∧
    ([1, 1] : List Nat).getD 0 0
        = ((execOps initState sampleOps).predictions.getD 0 default).optionCounts.getD 0 0 :=
  ⟨(C6_unused_slots sampleOps 0 (by decide)).1 2 (by decide),
   ((C6_unused_slots sampleOps 0 (by decide)).2 [1, 1] (by decide)).1,
   ((C6_unused_slots sampleOps 0 (by decide)).2 [1, 1] (by decide)).2 0 (by decide)⟩

/-- C1 counterexample: the claimed invariant
`sum(optionCounts[0..optionCount)) = totalBets` does not hold for every
sequence of accepted bets: after an accepted bet whose encrypted choice
decodes to 5 on a two-option market, the counters sum to 0 while
`totalBets` is 1. -/
theorem C1_sum_invariant_counterexample :
    ¬ ∀ (ops : List Op) (pid : Nat),
        pid < (execOps initState ops).predictions.length →
        countSum ((execOps initState ops).predictions.getD pid default).optionCount
            ((execOps initState ops).predictions.getD pid default).optionCounts
          = ((execOps initState ops).predictions.getD pid default).totalBets := by
  intro h
  have hc := h outOfRangeChoiceOps 0 (by decide)
  revert hc
  decide

/-- C1 (amended): for every market at every state reached by a trace in
which each accepted bet's encrypted choice decodes into `[0, optionCount)`,
the sum of the plaintext-equivalent option counters over
`[0, optionCount)` equals the plaintext-equivalent `totalBets` modulo
`2^32`. -/
theorem C1_sum_invariant (ops : List Op) (pid : Nat)
    (hgood : goodTrace initState ops = true)
    (hpid : pid < (execOps initState ops).predictions.length) :
    countSum ((execOps initState ops).predictions.getD pid default).optionCount
        ((execOps initState ops).predictions.getD pid default).optionCounts % 2 ^ 32
      = ((execOps initState ops).predictions.getD pid default).totalBets :=
  SumInv_execOps ops initState WFs_initState SumInv_initState hgood _
    (getD_mem _ pid hpid)

/-- C1 witness: the sample trace is in-range and its market satisfies the
amended invariant. -/
theorem C1_sum_invariant_witness :
    goodTrace initState sampleOps = true ∧
    countSum ((execOps initState sampleOps).predictions.getD 0 default).optionCount
        ((execOps initState sampleOps).predictions.getD 0 default).optionCounts % 2 ^ 32
      = ((execOps initState sampleOps).predictions.getD 0 default).totalBets :=
  ⟨by decide, C1_sum_invariant sampleOps 0 (by decide) (by decide)⟩

/-- C5 counterexample: the plaintext-equivalent totals are not monotonically
non-decreasing over the fixed-width counters: after one accepted bet of
`2^64 - 1`, a second accepted bet of `2^64 - 1` wraps `totalStaked` from
`2^64 - 1` down to `2^64 - 2`. -/
theorem C5_totals_monotone_counterexample :
    ¬ ∀ (ops : List Op) (op : Op) (pid : Nat),
        pid < (execOps initState ops).predictions.length →
        ((execOps initState ops).predictions.getD pid default).totalStaked
            ≤ ((runOp (execOps initState ops) op).predictions.getD pid default).totalStaked ∧
        ((execOps initState ops).predictions.getD pid default).totalBets
            ≤ ((runOp (execOps initState ops) op).predictions.getD pid default).totalBets := by
  intro h
  have hc := (h maxStakeOps (.bet 0 0 (2 ^ 64 - 1) 2) 0 (by decide)).1
  revert hc
  decide

theorem betSuccState_totalStaked (s : ContractState) (pid c v : Nat) (u : Address)
    (h : pid < s.predictions.length) :
    ((betSuccState s pid c v u).predictions.getD pid default).totalStaked
      = ((s.predictions.getD pid default).totalStaked + v % 2 ^ 64) % 2 ^ 64 := by
  rw [betSuccState_getD s pid c v u h]

theorem betSuccState_totalBets (s : ContractState) (pid c v : Nat) (u : Address)
    (h : pid < s.predictions.length) :
    ((betSuccState s pid c v u).predictions.getD pid default).totalBets
      = ((s.predictions.getD pid default).totalBets + 1) % 2 ^ 32 := by
  rw [betSuccState_getD s pid c v u h]

theorem betSuccState_getD_ne (s : ContractState) (pid q c v : Nat) (u : Address)
    (h : pid ≠ q) :
    (betSuccState s pid c v u).predictions.getD q default
      = s.predictions.getD q default := by
  unfold betSuccState
  exact getD_set_ne _ pid q _ h

/-- C5 (amended): `createPrediction` and `grantAccess` never change a
market's record; a bet can only change the totals of its own market by the
wrapping additions of the accepted amount and of 1, so both totals are
non-decreasing across every operation except when the fixed-width addition
wraps (`totalStaked + amount ≥ 2^64`, or `totalBets = 2^32 - 1`); each
accepted bet sets `totalBets` to `(totalBets + 1) mod 2^32` and
`totalStaked` to `(totalStaked + amount) mod 2^64`. -/
theorem C5_totals_monotone (s : ContractState) (pid : Nat) (hwf : WFs s)
    (hpid : pid < s.predictions.length)
    (t : String) (os : List String) (ts : Nat) (u₁ : Address)
    (q c₁ v₁ : Nat) (u₂ : Address)
    (c v : Nat) (u : Address) (hacc : accepted s pid c v u = true) :
    ((runOp s (.create t os ts u₁)).predictions.getD pid default
        = s.predictions.getD pid default) ∧
    ((runOp s (.grant q u₂)).predictions.getD pid default
        = s.predictions.getD pid default) ∧
    (((s.predictions.getD pid default).totalStaked
        ≤ ((runOp s (.bet q c₁ v₁ u₂)).predictions.getD pid default).totalStaked) ∨
      (0 < v₁ ∧ v₁ ≤ 2 ^ 64 - 1 ∧
        2 ^ 64 ≤ (s.predictions.getD pid default).totalStaked + v₁ ∧
        ((runOp s (.bet q c₁ v₁ u₂)).predictions.getD pid default).totalStaked
          = ((s.predictions.getD pid default).totalStaked + v₁) % 2 ^ 64)) ∧
    (((s.predictions.getD pid default).totalBets
        ≤ ((runOp s (.bet q c₁ v₁ u₂)).predictions.getD pid default).totalBets) ∨
      ((s.predictions.getD pid default).totalBets = 2 ^ 32 - 1 ∧
        ((runOp s (.bet q c₁ v₁ u₂)).predictions.getD pid default).totalBets = 0)) ∧
    (((runOp s (.bet pid c v u)).predictions.getD pid default).totalBets
        = ((s.predictions.getD pid default).totalBets + 1) % 2 ^ 32 ∧
      ((runOp s (.bet pid c v u)).predictions.getD pid default).totalStaked
        = ((s.predictions.getD pid default).totalStaked + v) % 2 ^ 64) := by
  have hbetcase : ∀ (q' c' v' : Nat) (u' : Address),
      runOp s (.bet q' c' v' u') = s ∨
      (runOp s (.bet q' c' v' u') = betSuccState s q' c' v' u' ∧
        q' < s.predictions.length ∧ 0 < v' ∧ v' ≤ 2 ^ 64 - 1) := by
    intro q' c' v' u'
    cases hpb : placeBet s q' c' v' u' with
    | error e => left; rw [runOp_bet, hpb]
    | ok s₁ =>
      right
      obtain ⟨hq, hv0, hvle, _, hs₁⟩ := placeBet_ok_inv s q' c' v' u' s₁ hpb
      exact ⟨by rw [runOp_bet, hpb, hs₁], hq, hv0, hvle⟩
  have hb := (hwf.1 _ (getD_mem s.predictions pid hpid)).2.2.2.1
  refine ⟨?_, ?_, ?_, ?_, ?_⟩
  · by_cases hg : os.length < 2 ∨ os.length > 4
    · rw [runOp_create, createPrediction_err s t os ts u₁ hg]
    · push_neg at hg
      rw [runOp_create, createPrediction_ok s t os ts u₁ (by omega) (by omega)]
      exact getD_append_left _ _ pid hpid
  · by_cases hg : s.predictions.length ≤ q
    · rw [runOp_grant, grantAccess_err s q u₂ hg]
    · rw [runOp_grant_ok s q u₂ (by omega)]
  · rcases hbetcase q c₁ v₁ u₂ with hcase | ⟨hrun, hq, hv0, hvle⟩
    · rw [hcase]; exact Or.inl (le_refl _)
    · rw [hrun]
      by_cases hqp : q = pid
      · subst hqp
        rw [betSuccState_totalStaked s q c₁ v₁ u₂ hq,
          Nat.mod_eq_of_lt (show v₁ < 2 ^ 64 by omega)]
        by_cases hwrap : (s.predictions.getD q default).totalStaked + v₁ < 2 ^ 64
        · exact Or.inl (by rw [Nat.mod_eq_of_lt hwrap]; omega)
        · exact Or.inr ⟨hv0, hvle, by omega, rfl⟩
      · rw [betSuccState_getD_ne s q pid c₁ v₁ u₂ hqp]
        exact Or.inl (le_refl _)
  · rcases hbetcase q c₁ v₁ u₂ with hcase | ⟨hrun, hq, hv0, hvle⟩
    · rw [hcase]; exact Or.inl (le_refl _)
    · rw [hrun]
      by_cases hqp : q = pid
      · subst hqp
        rw [betSuccState_totalBets s q c₁ v₁ u₂ hq]
        by_cases hwrap : (s.predictions.getD q default).totalBets + 1 < 2 ^ 32
        · exact Or.inl (by rw [Nat.mod_eq_of_lt hwrap]; omega)
        · refine Or.inr ⟨by omega, ?_⟩
          rw [show (s.predictions.getD q default).totalBets = 2 ^ 32 - 1 by omega]
          norm_num
      · rw [betSuccState_getD_ne s q pid c₁ v₁ u₂ hqp]
        exact Or.inl (le_refl _)
  · have hpb : placeBet s pid c v u = .ok (betSuccState s pid c v u) := by
      unfold accepted at hacc
      cases hpb : placeBet s pid c v u with
      | error e => rw [hpb] at hacc; cases hacc
      | ok s₁ =>
        obtain ⟨_, _, _, _, hs₁⟩ := placeBet_ok_inv s pid c v u s₁ hpb
        rw [hs₁]
    obtain ⟨_, hv0, hvle, _, _⟩ := placeBet_ok_inv s pid c v u _ hpb
    have hrun : runOp s (.bet pid c v u) = betSuccState s pid c v u := by
      rw [runOp_bet, hpb]
    rw [hrun, betSuccState_totalStaked s pid c v u hpid,
      betSuccState_totalBets s pid c v u hpid,
      Nat.mod_eq_of_lt (show v < 2 ^ 64 by omega)]
    exact ⟨rfl, rfl⟩

/-- C5 witness: on the one-market state an accepted bet of 7 from address 5
adds exactly 1 to `totalBets` and 7 to `totalStaked` (modulo the widths). -/
theorem C5_totals_monotone_witness :
    ((runOp (execOps initState oneMarketOps) (.bet 0 0 7 5)).predictions.getD
          0 default).totalBets
        = (((execOps initState oneMarketOps).predictions.getD 0 default).totalBets + 1)
            % 2 ^ 32 ∧
    ((runOp (execOps initState oneMarketOps) (.bet 0 0 7 5)).predictions.getD
          0 default).totalStaked
        = (((execOps initState oneMarketOps).predictions.getD 0 default).totalStaked + 7)
            % 2 ^ 64 :=
  (C5_totals_monotone (execOps initState oneMarketOps) 0
      (WFs_execOps oneMarketOps initState WFs_initState) (by decide)
      "X" ["A", "B"] 0 3 0 0 5 4 0 7 5 (by decide)).2.2.2.2

end VeiledMarket
